import Mathlib

/-!
Verification of the core logic of the `react-signalDB-example` todo
application: the folder hierarchy service (`src/services/folderService.ts`),
the todo hooks (`src/hooks/useTodos.ts`, `src/hooks/useSignalDB.ts`), the
form validation (`src/components/TodoForm/TodoForm.tsx`), the windowed list
renderer (`src/components/TodoList/TodoList.tsx`) and the date helpers
(`src/utils/dateHelpers.ts`), shallowly embedded over lists of records.
Timestamps (`Date` values) are modelled as natural numbers of milliseconds
since the epoch; `null`/`undefined` fields are modelled with `Option`.
-/

namespace SignalDBTodo

/-- Priority levels, from `src/types/todo.ts` (`'low' | 'medium' | 'high'`). -/
inductive Priority where
  | low
  | medium
  | high
deriving DecidableEq, Repr

/-- A todo record, from the `Todo` interface in `src/types/todo.ts`.
`Date` fields are milliseconds-since-epoch naturals; the optional
`description` and `dueDate` are `Option`s. -/
structure Todo where
  id : String
  title : String
  description : Option String := none
  completed : Bool
  priority : Priority
  tags : List String := []
  dueDate : Option Nat := none
  createdAt : Nat
  updatedAt : Nat
deriving DecidableEq, Repr

/-- A folder record, from the `Folder` interface in `src/types/folder.ts`:
`parentId : string | null` becomes `Option String` (`none` models `null`,
which only the root folder carries). -/
structure Folder where
  id : String
  name : String
  color : String
  parentId : Option String
  createdAt : Nat
  updatedAt : Nat
deriving DecidableEq, Repr

/-- The todo record of the folder-tree part of the app, from the `Todo`
interface in `src/types/folder.ts`: it carries a `folderId` reference. -/
structure FTodo where
  id : String
  title : String
  completed : Bool
  folderId : String
  createdAt : Nat
deriving DecidableEq, Repr

/-- The two collections `folderService` operates on
(`foldersCollection` and `todosCollection` in `src/db/collections`). -/
structure FolderState where
  folders : List Folder
  todos : List FTodo
deriving DecidableEq, Repr

/-- Whitespace for JavaScript's `String.prototype.trim` (the characters the
source's titles and tags can realistically carry). -/
def jsWhitespace (c : Char) : Bool :=
  c = ' ' || c = '\t' || c = '\n' || c = '\r'

/-- JavaScript `value.trim()`: strip leading and trailing whitespace,
modelled on the character list so it evaluates. -/
def jsTrim (s : String) : String :=
  ⟨((s.data.dropWhile jsWhitespace).reverse.dropWhile jsWhitespace).reverse⟩

/-- JavaScript `value.toLowerCase()`, modelled character-wise. -/
def jsToLower (s : String) : String :=
  ⟨s.data.map Char.toLower⟩

/-- Lexicographic comparison of character lists, by code point. -/
def charListLt : List Char → List Char → Bool
  | [], [] => false
  | [], _ :: _ => true
  | _ :: _, [] => false
  | a :: as, b :: bs =>
    if a < b then true else if b < a then false else charListLt as bs

/-- JavaScript's `a < b` on strings: lexicographic by code unit. -/
def jsStringLt (a b : String) : Bool :=
  charListLt a.data b.data

namespace folderService

/-- Embeds `foldersCollection.findOne({ id })`: the first folder whose `id` matches. -/
def findFolder (folders : List Folder) (id : String) : Option Folder :=
  folders.find? (fun f => f.id == id)

/-- Embeds `foldersCollection.updateOne({ id }, { $set: ... })`: apply `g` to the
first folder whose `id` matches, leave the rest untouched. -/
def updateOneFolder (folders : List Folder) (id : String) (g : Folder → Folder) :
    List Folder :=
  match folders with
  | [] => []
  | f :: rest =>
    if f.id == id then g f :: rest else f :: updateOneFolder rest id g

/-- Embeds `foldersCollection.removeOne({ id })`: drop the first folder whose `id`
matches. -/
def removeOneFolder (folders : List Folder) (id : String) : List Folder :=
  match folders with
  | [] => []
  | f :: rest =>
    if f.id == id then rest else f :: removeOneFolder rest id

/-- The recursive ancestry walk `isDescendant(parentId, checkId)` inside
`folderService.moveFolder` (src/services/folderService.ts:68-73): walk parent
pointers upward from `parentId` looking for `checkId`.  The TypeScript
recursion has no termination guard (it diverges on a cyclic parent graph), so
the embedding takes explicit fuel; on an acyclic folder forest any fuel above
the folder count computes the same answer as the source.  The
`pid == ""` test mirrors JavaScript's falsiness of the empty string in
`!parent.parentId`. -/
def isDescendant (folders : List Folder) : Nat → String → String → Bool
  | 0, _, _ => false
  | fuel + 1, parentId, checkId =>
    if parentId == checkId then true
    else
      match findFolder folders parentId with
      | none => false
      | some parent =>
        match parent.parentId with
        | none => false
        | some pid =>
          if pid == "" then false else isDescendant folders fuel pid checkId

/-- The recursive child enumeration `getAllChildFolders(parentId)` inside
`folderService.deleteFolder` (src/services/folderService.ts:36-45): direct
child ids first, then each child's recursive descendants appended in order.
Fuel bounds the recursion depth; on an acyclic folder forest depth never
exceeds the folder count, so fuel `folders.length` reproduces the source. -/
def getAllChildFolders (folders : List Folder) : Nat → String → List String
  | 0, _ => []
  | fuel + 1, parentId =>
    let childFolders := folders.filter (fun f => f.parentId == some parentId)
    childFolders.map (fun f => f.id) ++
      childFolders.flatMap (fun f => getAllChildFolders folders fuel f.id)

/-- Embeds `[id, ...getAllChildFolders(id)]`: the ids `deleteFolder` deletes
(src/services/folderService.ts:47). -/
def folderIdsToDelete (folders : List Folder) (id : String) : List String :=
  id :: getAllChildFolders folders folders.length id

/-- The first phase of `deleteFolder`: for each folder id in the list,
`todosCollection.removeMany({ folderId })` (src/services/folderService.ts:50-52). -/
def deleteTodosPhase (todos : List FTodo) (ids : List String) : List FTodo :=
  ids.foldl (fun ts fid => ts.filter (fun t => !(t.folderId == fid))) todos

/-- The second phase of `deleteFolder`: for each folder id in the list,
`foldersCollection.removeOne({ id })` (src/services/folderService.ts:55-57). -/
def deleteFoldersPhase (folders : List Folder) (ids : List String) : List Folder :=
  ids.foldl (fun fs fid => removeOneFolder fs fid) folders

/-- Embeds `folderService.deleteFolder` (src/services/folderService.ts:29-58):
reject `'root'`; otherwise compute `{id} ∪ descendants`, delete every todo
in those folders, then delete the folders themselves.  The todo phase runs
before the folder phase, exactly as in the source. -/
def deleteFolder (s : FolderState) (id : String) : FolderState :=
  if id == "root" then s
  else
    let ids := folderIdsToDelete s.folders id
    let todosAfter := deleteTodosPhase s.todos ids
    let foldersAfter := deleteFoldersPhase s.folders ids
    { folders := foldersAfter, todos := todosAfter }

/-- Embeds `folderService.moveFolder` (src/services/folderService.ts:61-84):
reject moving `'root'`; reject when the ancestry walk finds `folderId` at or
above `newParentId` (the cycle check, which runs before any mutation);
otherwise set the folder's `parentId` (and `updatedAt`) via `updateOne`. -/
def moveFolder (s : FolderState) (folderId newParentId : String) (now : Nat) :
    FolderState :=
  if folderId == "root" then s
  else if isDescendant s.folders (s.folders.length + 1) newParentId folderId then s
  else
    { s with
      folders := updateOneFolder s.folders folderId
        (fun f => { f with parentId := some newParentId, updatedAt := now }) }

end folderService

/-- The field-wise `$set` patch a caller passes to the store hook's
`updateOne`/`updateMany` (`update: Partial<Todo>` in src/hooks/useSignalDB.ts):
every field is independently optional. -/
structure TodoPatch where
  id : Option String := none
  title : Option String := none
  description : Option (Option String) := none
  completed : Option Bool := none
  priority : Option Priority := none
  tags : Option (List String) := none
  dueDate : Option (Option Nat) := none
  createdAt : Option Nat := none
  updatedAt : Option Nat := none
deriving DecidableEq, Repr

/-- Apply a `$set` patch to a record: each present field overwrites the
record's field, absent fields are kept. -/
def applySet (t : Todo) (p : TodoPatch) : Todo :=
  { t with
    id := p.id.getD t.id
    title := p.title.getD t.title
    description := p.description.getD t.description
    completed := p.completed.getD t.completed
    priority := p.priority.getD t.priority
    tags := p.tags.getD t.tags
    dueDate := p.dueDate.getD t.dueDate
    createdAt := p.createdAt.getD t.createdAt
    updatedAt := p.updatedAt.getD t.updatedAt }

namespace useSignalDB

/-- Embeds `collection.findOne({ id })`: the first todo whose `id` matches. -/
def findOneTodo (todos : List Todo) (id : String) : Option Todo :=
  todos.find? (fun t => t.id == id)

/-- Embeds `collection.updateOne(selector, ...)` restricted to the `{ id }` selectors
the hooks use: apply `g` to the first matching record. -/
def updateOneTodoBy (todos : List Todo) (id : String) (g : Todo → Todo) :
    List Todo :=
  match todos with
  | [] => []
  | t :: rest =>
    if t.id == id then g t :: rest else t :: updateOneTodoBy rest id g

/-- The hook's `updateOne` (src/hooks/useSignalDB.ts:76-85): it spreads the
caller's patch and then writes `updatedAt: new Date()` AFTER the spread, so
the current time overrides any `updatedAt` the caller supplied; the combined
object is `$set` on the first record matching `{ id }`. -/
def updateOne (todos : List Todo) (id : String) (p : TodoPatch) (now : Nat) :
    List Todo :=
  updateOneTodoBy todos id (fun t => applySet t { p with updatedAt := some now })

/-- The hook's `updateMany` (src/hooks/useSignalDB.ts:87-96): same combined
patch, `$set` on every record matching the selector (here: a predicate). -/
def updateMany (todos : List Todo) (sel : Todo → Bool) (p : TodoPatch)
    (now : Nat) : List Todo :=
  todos.map (fun t => if sel t then applySet t { p with updatedAt := some now } else t)

end useSignalDB

namespace useTodos

open useSignalDB

/-- Embeds `createTodo` (src/hooks/useTodos.ts:128-136): stamp `createdAt` and
`updatedAt` with the same `now` and insert with a fresh id. -/
def createTodo (todos : List Todo) (t : Todo) (id : String) (now : Nat) :
    List Todo :=
  todos ++ [{ t with id := id, createdAt := now, updatedAt := now }]

/-- Embeds `toggleTodo` (src/hooks/useTodos.ts:148-154): read the record, no-op when
absent, otherwise `updateOne({ id }, { completed: !todo.completed })` through
the hook (which stamps `updatedAt := now`). -/
def toggleTodo (todos : List Todo) (id : String) (now : Nat) : List Todo :=
  match findOneTodo todos id with
  | none => todos
  | some t => updateOne todos id { completed := some (!t.completed) } now

/-- Filter status, from `src/types/todo.ts` (`'all' | 'active' | 'completed'`). -/
inductive FilterStatus where
  | all
  | active
  | completed
deriving DecidableEq, Repr

/-- Sort field, from `src/types/todo.ts` (`'date' | 'priority' | 'title'`). -/
inductive SortBy where
  | date
  | priority
  | title
deriving DecidableEq, Repr

/-- Sort direction (`'asc' | 'desc'`). -/
inductive SortDirection where
  | asc
  | desc
deriving DecidableEq, Repr

/-- Case-insensitive substring test, modelling JavaScript's
`haystack.toLowerCase().includes(needle)` on an already-lowercased needle. -/
def containsSub (haystack needle : String) : Bool :=
  (List.range (haystack.length + 1)).any
    (fun i => needle.isPrefixOf (haystack.drop i))

/-- Embeds `FilterOptions` from `src/types/todo.ts`: every dimension optional. -/
structure FilterOptions where
  status : Option FilterStatus := none
  priority : Option Priority := none
  searchTerm : Option String := none
  tags : Option (List String) := none
  dateRange : Option (Nat × Nat) := none
deriving Repr

/-- Embeds `filterTodos` (src/hooks/useTodos.ts:157-198): the sequential filter
chain over status, priority, tags, search term and date range. -/
def filterTodos (todos : List Todo) (fo : FilterOptions) : List Todo :=
  let f1 :=
    match fo.status with
    | some .active => todos.filter (fun t => !t.completed)
    | some .completed => todos.filter (fun t => t.completed)
    | _ => todos
  let f2 :=
    match fo.priority with
    | some p => f1.filter (fun t => decide (t.priority = p))
    | none => f1
  let f3 :=
    match fo.tags with
    | some tags =>
      if tags.length > 0 then
        f2.filter (fun t => tags.any (fun tag => t.tags.contains tag))
      else f2
    | none => f2
  let f4 :=
    match fo.searchTerm with
    | some term =>
      if term == "" then f3
      else
        let lterm := jsToLower term
        f3.filter (fun t =>
          containsSub (jsToLower t.title) lterm ||
          (match t.description with
           | some d => containsSub (jsToLower d) lterm
           | none => false) ||
          t.tags.any (fun tag => containsSub (jsToLower tag) lterm))
    | none => f3
  match fo.dateRange with
  | some (start, stop) =>
    f4.filter (fun t => decide (start ≤ t.createdAt) && decide (t.createdAt ≤ stop))
  | none => f4

/-- The fixed priority ordering of `sortTodos`
(`const priorityOrder = { low: 1, medium: 2, high: 3 }`,
src/hooks/useTodos.ts:219). -/
def priorityOrder : Priority → Nat
  | .low => 1
  | .medium => 2
  | .high => 3

/-- Stable insertion of `a` into a sorted list: `a` goes before the first
element `b` with `le a b`.  Together with `sortList` this models the stable
`Array.prototype.sort` the hook relies on. -/
def insertSorted (le : Todo → Todo → Bool) (a : Todo) : List Todo → List Todo
  | [] => [a]
  | b :: l => if le a b then a :: b :: l else b :: insertSorted le a l

/-- Stable sort by the relation `le a b` ("the comparator does not require
`b` before `a`"), modelling `[...todos].sort(comparator)`. -/
def sortList (le : Todo → Todo → Bool) : List Todo → List Todo
  | [] => []
  | a :: l => insertSorted le a (sortList le l)

/-- Embeds `sortTodos` (src/hooks/useTodos.ts:209-236): sort key per field (title
lowercased, priority through `priorityOrder`, otherwise `createdAt`), with
the comparator returning negative when the first argument sorts earlier.
`le a b` holds when the comparator does not place `b` strictly before `a`. -/
def sortTodos (todos : List Todo) (sortField : SortBy)
    (direction : SortDirection) : List Todo :=
  sortList
    (fun a b =>
      match sortField with
      | .title =>
        let av := jsToLower a.title
        let bv := jsToLower b.title
        (match direction with
         | .asc => !(jsStringLt bv av)
         | .desc => !(jsStringLt av bv))
      | .priority =>
        let av := priorityOrder a.priority
        let bv := priorityOrder b.priority
        (match direction with
         | .asc => !(decide (bv < av))
         | .desc => !(decide (av < bv)))
      | .date =>
        let av := a.createdAt
        let bv := b.createdAt
        (match direction with
         | .asc => !(decide (bv < av))
         | .desc => !(decide (av < bv))))
    todos

/-- Milliseconds per day, for the local-midnight truncations the source
performs with `setHours(0, 0, 0, 0)`. -/
def msPerDay : Nat := 86400000

/-- Embeds `new Date(); setHours(0,0,0,0)`: the start of the day containing `now`. -/
def startOfDayMs (now : Nat) : Nat :=
  now / msPerDay * msPerDay

/-- The record `getTodoStats` returns (the `TodoStats` interface of
`src/types/todo.ts`); `completionRate` is a rational, modelling the
JavaScript float `(completed / total) * 100`. -/
structure TodoStatsR where
  total : Nat
  completed : Nat
  active : Nat
  completionRate : Rat
  todayAdded : Nat
  overdueCount : Nat
deriving DecidableEq, Repr

/-- Embeds `getTodoStats` (src/hooks/useTodos.ts:239-267).  `overdueCount` compares
`todo.dueDate < now` at full timestamp precision — NOT truncated to the day
the way `dateHelpers.isOverdue` is. -/
def getTodoStats (todos : List Todo) (now : Nat) : TodoStatsR :=
  let total := todos.length
  let completed := (todos.filter (fun t => t.completed)).length
  let active := total - completed
  let completionRate : Rat :=
    if total > 0 then ((completed : Rat) / (total : Rat)) * 100 else 0
  let today := startOfDayMs now
  let tomorrow := today + msPerDay
  let todayAdded :=
    (todos.filter (fun t =>
      decide (today ≤ t.createdAt) && decide (t.createdAt < tomorrow))).length
  let overdueCount :=
    (todos.filter (fun t =>
      !t.completed &&
        (match t.dueDate with
         | some d => decide (d < now)
         | none => false))).length
  { total := total, completed := completed, active := active,
    completionRate := completionRate, todayAdded := todayAdded,
    overdueCount := overdueCount }

end useTodos

namespace dateHelpers

/-- Embeds `isOverdue` (src/utils/dateHelpers.ts:19-29): truncate both the due date
and the current time to their local midnight and compare strictly — day
granularity. -/
def isOverdue (dueDate : Option Nat) (now : Nat) : Bool :=
  match dueDate with
  | none => false
  | some d =>
    decide (useTodos.startOfDayMs d < useTodos.startOfDayMs now)

end dateHelpers

namespace TodoForm

/-- The raw form state (`TodoFormData` in src/types/todo.ts): every field a
string, as held by the controlled inputs. -/
structure TodoFormData where
  title : String
  description : String
  priority : String
  tags : String
  dueDate : String
deriving Repr

/-- Embeds `validateField('title', value)` (src/components/TodoForm/TodoForm.tsx:54-60):
required, then trimmed length at least 3, then trimmed length at most 100.
`some` is the error message, `none` acceptance. -/
def validateTitle (value : String) : Option String :=
  if jsTrim value == "" then some "Title is required"
  else if (jsTrim value).length < 3 then some "Title must be at least 3 characters"
  else if (jsTrim value).length > 100 then some "Title must be less than 100 characters"
  else none

/-- Embeds `validateField('description', value)` (TodoForm.tsx:62-65). -/
def validateDescription (value : String) : Option String :=
  if value != "" && value.length > 500 then
    some "Description must be less than 500 characters"
  else none

/-- Embeds `validateField('priority', value)` (TodoForm.tsx:67-70). -/
def validatePriorityField (value : String) : Option String :=
  if value == "low" || value == "medium" || value == "high" then none
  else some "Invalid priority"

/-- Embeds `validateField('tags', value)` (TodoForm.tsx:72-82): split on commas,
trim, drop empties, then bound count and each tag's length. -/
def validateTags (value : String) : Option String :=
  if value == "" then none
  else
    let tags := ((value.splitOn ",").map jsTrim).filter (fun t => t != "")
    if tags.length > 10 then some "Maximum 10 tags allowed"
    else if tags.any (fun t => t.length > 20) then
      some "Each tag must be less than 20 characters"
    else none

/-- Embeds `validateField('dueDate', value)` (TodoForm.tsx:84-92), parameterised by
the date parser (`new Date(value)` returning a timestamp, `none` for NaN)
and today's local midnight. -/
def validateDueDate (parse : String → Option Nat) (today0 : Nat)
    (value : String) : Option String :=
  if value == "" then none
  else
    match parse value with
    | none => some "Invalid date format"
    | some d =>
      if d < today0 then some "Due date cannot be in the past" else none

/-- Embeds `validateForm` (TodoForm.tsx:101-115): valid exactly when every field's
validator returns no error. -/
def validateForm (parse : String → Option Nat) (today0 : Nat)
    (fd : TodoFormData) : Bool :=
  (validateTitle fd.title).isNone &&
  (validateDescription fd.description).isNone &&
  (validatePriorityField fd.priority).isNone &&
  (validateTags fd.tags).isNone &&
  (validateDueDate parse today0 fd.dueDate).isNone

/-- First-occurrence deduplication, modelling
`arr.filter((tag, index, arr) => arr.indexOf(tag) === index)`
(TodoForm.tsx:160). -/
def dedupFirst (seen : List String) : List String → List String
  | [] => []
  | a :: l =>
    if seen.contains a then dedupFirst seen l
    else a :: dedupFirst (a :: seen) l

/-- The payload `handleSubmit` passes to `onSubmit` (TodoForm.tsx:162-169). -/
structure TodoSubmitData where
  title : String
  description : Option String
  priority : String
  tags : List String
  dueDate : Option Nat
  completed : Bool
deriving Repr

/-- Embeds `handleSubmit` (TodoForm.tsx:139-174): `none` (no mutation reaches the
store) when `validateForm` fails; otherwise the trimmed, deduplicated
payload. -/
def handleSubmit (parse : String → Option Nat) (today0 : Nat)
    (initialCompleted : Bool) (fd : TodoFormData) : Option TodoSubmitData :=
  if validateForm parse today0 fd then
    some
      { title := jsTrim fd.title
        description :=
          if jsTrim fd.description == "" then none else some (jsTrim fd.description)
        priority := fd.priority
        tags := dedupFirst []
          (((fd.tags.splitOn ",").map jsTrim).filter (fun t => t != ""))
        dueDate := if fd.dueDate == "" then none else parse fd.dueDate
        completed := initialCompleted }
  else none

end TodoForm

namespace TodoList

/-- The render buffer (`const buffer = 5`, src/components/TodoList/TodoList.tsx:63). -/
def buffer : Nat := 5

/-- Embeds `Math.ceil(a / b)` on naturals (for `b > 0`). -/
def ceilDiv (a b : Nat) : Nat := (a + b - 1) / b

/-- Embeds `visibleStart = Math.floor(scrollTop / itemHeight)` (TodoList.tsx:78). -/
def visibleStart (itemHeight scrollTop : Nat) : Nat :=
  scrollTop / itemHeight

/-- Embeds `visibleEnd = Math.min(todos.length - 1, visibleStart + Math.ceil(containerHeight / itemHeight) - 1)`
(TodoList.tsx:79-82). -/
def visibleEnd (n itemHeight containerHeight scrollTop : Nat) : Nat :=
  min (n - 1)
    (visibleStart itemHeight scrollTop + ceilDiv containerHeight itemHeight - 1)

/-- The materialized index range of `itemsToRender` (TodoList.tsx:63-70):
`[Math.max(0, start - buffer), Math.min(n - 1, end + buffer)]`, computed from
the visible range `handleScroll` stored.  Natural subtraction truncates at 0,
matching `Math.max(0, ·)`. -/
def renderRange (n itemHeight containerHeight scrollTop : Nat) : Nat × Nat :=
  (visibleStart itemHeight scrollTop - buffer,
   min (n - 1) (visibleEnd n itemHeight containerHeight scrollTop + buffer))

/-- The indices `itemsToRender` materializes, threshold included
(TodoList.tsx:58-71): below 50 records everything is rendered; above, the
buffered window. -/
def itemsToRenderIdx (n itemHeight containerHeight scrollTop : Nat) : List Nat :=
  if n < 50 then List.range n
  else
    (List.range ((renderRange n itemHeight containerHeight scrollTop).2 + 1 -
        (renderRange n itemHeight containerHeight scrollTop).1)).map
      (fun i => (renderRange n itemHeight containerHeight scrollTop).1 + i)

end TodoList

/-- Descendancy in at most `fuel` parent-edge steps: `DescendsN folders fuel a b`
holds when some chain of folder records `f₁, …, fₖ` (`k ≥ 1`, `k ≤ fuel`) has
`f₁.parentId = a`, each `fᵢ₊₁.parentId = fᵢ.id`, and `fₖ.id = b`.  This is the
propositional counterpart of the recursive child enumeration
`folderService.getAllChildFolders`, used to relate it to the upward ancestry
walk `folderService.isDescendant`. -/
def DescendsN (folders : List Folder) : Nat → String → String → Prop
  | 0, _, _ => False
  | fuel + 1, a, b =>
    (∃ f ∈ folders, f.parentId = some a ∧ f.id = b) ∨
    (∃ f ∈ folders, f.parentId = some a ∧ DescendsN folders fuel f.id b)

/-- A three-folder forest `root → A → B`, used as concrete input for the
folder-service theorems. -/
def demoFolders : List Folder :=
  [{ id := "root", name := "Root", color := "#000000", parentId := none,
     createdAt := 0, updatedAt := 0 },
   { id := "A", name := "Alpha folder", color := "#111111", parentId := some "root",
     createdAt := 1, updatedAt := 1 },
   { id := "B", name := "Beta folder", color := "#222222", parentId := some "A",
     createdAt := 2, updatedAt := 2 }]

/-- A folder-app todo set over `demoFolders`: one todo in `B`, one in `root`. -/
def demoState : FolderState :=
  { folders := demoFolders,
    todos := [{ id := "t1", title := "in B", completed := false, folderId := "B",
                createdAt := 3 },
              { id := "t2", title := "in root", completed := false, folderId := "root",
                createdAt := 4 }] }

/-- Concrete todo "Alpha" with low priority, for the sort scenario. -/
def alphaTodo : Todo :=
  { id := "ta", title := "Alpha", completed := false, priority := .low,
    createdAt := 1, updatedAt := 1 }

/-- Concrete todo "Beta" with high priority, for the sort scenario. -/
def betaTodo : Todo :=
  { id := "tb", title := "Beta", completed := false, priority := .high,
    createdAt := 2, updatedAt := 2 }

/-- Concrete todo "Gamma" with medium priority, for the sort scenario. -/
def gammaTodo : Todo :=
  { id := "tc", title := "Gamma", completed := false, priority := .medium,
    createdAt := 3, updatedAt := 3 }

/-- A concrete incomplete todo whose due date is the exact midnight starting
day 0 (`dueDate` carries only a date), used against the overdue-count claim. -/
def midnightDueTodo : Todo :=
  { id := "tm", title := "due today", completed := false, priority := .low,
    dueDate := some 0, createdAt := 0, updatedAt := 0 }

/-- C4: for every record count `n`, item height, viewport height and scroll
offset, the buffered window the virtualized `TodoList` materializes —
`[max(0, visibleStart - buffer), min(n-1, visibleEnd + buffer)]` — contains
the analytically visible index range
`[floor(S/H), min(n-1, floor(S/H) + ceil(V/H) - 1)]` as a subset, and every
index of that range is among the indices `itemsToRender` materializes. -/
theorem window_contains_visible
    (n itemHeight containerHeight scrollTop i : Nat)
    (hH : 1 ≤ itemHeight) (hn : 1 ≤ n)
    (h1 : TodoList.visibleStart itemHeight scrollTop ≤ i)
    (h2 : i ≤ TodoList.visibleEnd n itemHeight containerHeight scrollTop) :
    (TodoList.renderRange n itemHeight containerHeight scrollTop).1 ≤ i ∧
    i ≤ (TodoList.renderRange n itemHeight containerHeight scrollTop).2 ∧
    i ∈ TodoList.itemsToRenderIdx n itemHeight containerHeight scrollTop := by
  have hr1 : (TodoList.renderRange n itemHeight containerHeight scrollTop).1 =
      TodoList.visibleStart itemHeight scrollTop - TodoList.buffer := rfl
  have hr2 : (TodoList.renderRange n itemHeight containerHeight scrollTop).2 =
      min (n - 1)
        (TodoList.visibleEnd n itemHeight containerHeight scrollTop + TodoList.buffer) := rfl
  have hin : i ≤ n - 1 := le_trans h2 (Nat.min_le_left _ _)
  have hstart : (TodoList.renderRange n itemHeight containerHeight scrollTop).1 ≤ i := by
    rw [hr1]; exact le_trans (Nat.sub_le _ _) h1
  have hend : i ≤ (TodoList.renderRange n itemHeight containerHeight scrollTop).2 := by
    rw [hr2]; exact le_min hin (le_trans h2 (Nat.le_add_right _ _))
  refine ⟨hstart, hend, ?_⟩
  unfold TodoList.itemsToRenderIdx
  by_cases h50 : n < 50
  · rw [if_pos h50, List.mem_range]
    omega
  · rw [if_neg h50]
    simp only [List.mem_map, List.mem_range]
    exact ⟨i - (TodoList.renderRange n itemHeight containerHeight scrollTop).1,
      by omega, by omega⟩

/-- Witness for C4 at `n = 100`, `itemHeight = 120`, `containerHeight = 600`,
`scrollTop = 250`, index `i = 4` (the visible range is `[2, 6]`, the rendered
window `[0, 11]`). -/
theorem window_contains_visible_witness :
    (TodoList.renderRange 100 120 600 250).1 ≤ 4 ∧
    4 ≤ (TodoList.renderRange 100 120 600 250).2 ∧
    4 ∈ TodoList.itemsToRenderIdx 100 120 600 250 :=
  window_contains_visible 100 120 600 250 4 (by decide) (by decide)
    (by decide) (by decide)

/-- C9: the concrete sort scenario — three todos "Alpha"(low), "Beta"(high),
"Gamma"(medium); sorting by priority descending yields [Beta, Gamma, Alpha]
and sorting by title ascending yields [Alpha, Beta, Gamma]; the fixed
priority ordering is high > medium > low. -/
theorem sortTodos_scenario :
    useTodos.sortTodos [alphaTodo, betaTodo, gammaTodo] .priority .desc =
      [betaTodo, gammaTodo, alphaTodo] ∧
    useTodos.sortTodos [alphaTodo, betaTodo, gammaTodo] .title .asc =
      [alphaTodo, betaTodo, gammaTodo] ∧
    useTodos.priorityOrder .low < useTodos.priorityOrder .medium ∧
    useTodos.priorityOrder .medium < useTodos.priorityOrder .high := by
  refine ⟨?_, ?_, by decide, by decide⟩ <;> decide

/-- C5 counterexample: the title "ab" trims to exactly 2 characters — within
the claimed 2–100 acceptance range — yet `validateField` rejects it with a
minimum-length error. -/
theorem validateTitle_two_char_rejected :
    (jsTrim "ab").length = 2 ∧
    TodoForm.validateTitle "ab" = some "Title must be at least 3 characters" := by
  constructor <;> decide

/-- C5 amended: todo title validation accepts an input exactly when its
trimmed length is between 3 and 100 characters, and a form whose title is
rejected produces no submission (no mutation reaches the store). -/
theorem validateTitle_accepts_iff :
    (∀ value : String,
      TodoForm.validateTitle value = none ↔
        3 ≤ (jsTrim value).length ∧ (jsTrim value).length ≤ 100) ∧
    (∀ (parse : String → Option Nat) (today0 : Nat) (ic : Bool)
        (fd : TodoForm.TodoFormData),
      TodoForm.validateTitle fd.title ≠ none →
        TodoForm.handleSubmit parse today0 ic fd = none) := by
  constructor
  · intro value
    unfold TodoForm.validateTitle
    by_cases h1 : jsTrim value = ""
    · have h0 : (jsTrim value).length = 0 := by rw [h1]; rfl
      simp [h1, h0]
    · simp only [h1, beq_iff_eq, if_neg]
      by_cases h2 : (jsTrim value).length < 3
      · simp only [if_pos h2]
        simp
        omega
      · rw [if_neg h2]
        by_cases h3 : (jsTrim value).length > 100
        · simp only [if_pos h3]
          simp
          omega
        · rw [if_neg h3]
          simp
          omega
  · intro parse today0 ic fd h
    obtain ⟨e, he⟩ := Option.ne_none_iff_exists'.mp h
    simp [TodoForm.handleSubmit, TodoForm.validateForm, he]

/-- C6 counterexample: a record that is incomplete with `dueDate` the exact
midnight starting day 0 (a date-only timestamp), evaluated at instant 1 —
later the same day.  At the claimed day granularity it is not overdue
(`dateHelpers.isOverdue` returns false, and the day-granular count is 0),
yet `getTodoStats` counts it as overdue. -/
theorem overdueCount_counts_same_day :
    midnightDueTodo.completed = false ∧
    midnightDueTodo.dueDate = some 0 ∧
    useTodos.startOfDayMs 0 = useTodos.startOfDayMs 1 ∧
    dateHelpers.isOverdue midnightDueTodo.dueDate 1 = false ∧
    ([midnightDueTodo].filter
      (fun t => !t.completed && dateHelpers.isOverdue t.dueDate 1)).length = 0 ∧
    (useTodos.getTodoStats [midnightDueTodo] 1).overdueCount = 1 := by
  refine ⟨rfl, rfl, rfl, rfl, rfl, rfl⟩

/-- C6 amended: `overdueCount` equals the number of records that are
incomplete and carry a `dueDate` strictly before the evaluation instant at
full timestamp precision (not day granularity); completed records and
records without a `dueDate` never contribute, and an incomplete record with
an earlier `dueDate` contributes exactly one. -/
theorem overdueCount_instant (todos : List Todo) (now : Nat) :
    ((useTodos.getTodoStats todos now).overdueCount =
      todos.countP (fun t => !t.completed &&
        (match t.dueDate with
         | some d => decide (d < now)
         | none => false))) ∧
    (∀ t : Todo, t.completed = true ∨ t.dueDate = none →
      (useTodos.getTodoStats (t :: todos) now).overdueCount =
        (useTodos.getTodoStats todos now).overdueCount) ∧
    (∀ (t : Todo) (d : Nat), t.completed = false → t.dueDate = some d → d < now →
      (useTodos.getTodoStats (t :: todos) now).overdueCount =
        (useTodos.getTodoStats todos now).overdueCount + 1) := by
  refine ⟨?_, ?_, ?_⟩
  · simp [useTodos.getTodoStats, List.countP_eq_length_filter]
  · rintro t (ht | ht) <;> simp [useTodos.getTodoStats, List.filter_cons, ht]
  · intro t d hc hd hlt
    simp [useTodos.getTodoStats, List.filter_cons, hc, hd, hlt]

/-- C7: `completionRate` equals `completed / total * 100` when `total > 0`
and is exactly 0 when `total = 0`; `getTodoStats` on the empty collection
returns every statistic equal to 0. -/
theorem getTodoStats_completionRate (todos : List Todo) (now : Nat) :
    (0 < todos.length →
      (useTodos.getTodoStats todos now).completionRate =
        ((todos.filter (fun t => t.completed)).length : Rat) /
          (todos.length : Rat) * 100) ∧
    (todos.length = 0 →
      (useTodos.getTodoStats todos now).completionRate = 0) ∧
    useTodos.getTodoStats [] now =
      { total := 0, completed := 0, active := 0, completionRate := 0,
        todayAdded := 0, overdueCount := 0 } := by
  refine ⟨?_, ?_, rfl⟩
  · intro h
    simp [useTodos.getTodoStats, h]
  · intro h
    simp [useTodos.getTodoStats, h]

/-- C8: for every collection state, filtering by status `active` and by
status `completed` partitions the record set — membership in each part is
exactly "in the collection and (not) completed", no record is in both parts,
and the two parts together are a permutation of the whole collection. -/
theorem filterTodos_status_partition (todos : List Todo) :
    (∀ t, t ∈ useTodos.filterTodos todos { status := some .active } ↔
        t ∈ todos ∧ t.completed = false) ∧
    (∀ t, t ∈ useTodos.filterTodos todos { status := some .completed } ↔
        t ∈ todos ∧ t.completed = true) ∧
    (∀ t, ¬(t ∈ useTodos.filterTodos todos { status := some .active } ∧
        t ∈ useTodos.filterTodos todos { status := some .completed })) ∧
    (useTodos.filterTodos todos { status := some .active } ++
        useTodos.filterTodos todos { status := some .completed }).Perm todos := by
  have ha : useTodos.filterTodos todos { status := some .active } =
      todos.filter (fun t => !t.completed) := rfl
  have hc : useTodos.filterTodos todos { status := some .completed } =
      todos.filter (fun t => t.completed) := rfl
  refine ⟨?_, ?_, ?_, ?_⟩
  · intro t
    rw [ha]
    simp [List.mem_filter]
  · intro t
    rw [hc]
    simp [List.mem_filter]
  · rintro t ⟨h1, h2⟩
    rw [ha] at h1
    rw [hc] at h2
    simp [List.mem_filter] at h1 h2
    exact absurd h2.2 (by simp [h1.2])
  · rw [ha, hc]
    exact (List.perm_append_comm).trans
      (List.filter_append_perm (fun t => t.completed) todos)

/-- Updating the first record matching an id, with an id-preserving update
function, commutes with `findOne` on that id: the found record is the updated
one. -/
theorem findOne_updateOneTodoBy (todos : List Todo) (id : String)
    (g : Todo → Todo) (hg : ∀ u, (g u).id = u.id) :
    useSignalDB.findOneTodo (useSignalDB.updateOneTodoBy todos id g) id =
      (useSignalDB.findOneTodo todos id).map g := by
  induction todos with
  | nil => rfl
  | cons t rest ih =>
    cases h : (t.id == id) with
    | true =>
      have hg' : ((g t).id == id) = true := by rw [hg t]; exact h
      simp only [useSignalDB.updateOneTodoBy, useSignalDB.findOneTodo,
        List.find?_cons, h, hg', if_pos, Option.map_some']
    | false =>
      have : useSignalDB.updateOneTodoBy (t :: rest) id g =
          t :: useSignalDB.updateOneTodoBy rest id g := by
        simp [useSignalDB.updateOneTodoBy, h]
      rw [this]
      simp only [useSignalDB.findOneTodo, List.find?_cons, h]
      exact ih

/-- C3: toggling an existing todo twice restores `completed` to its original
value, and each toggle stamps `updatedAt` with the toggle's current time —
strictly larger than the value the record held before that toggle, given
that the clock strictly advances between writes. -/
theorem toggleTodo_involution (todos : List Todo) (id : String) (t0 : Todo)
    (n1 n2 : Nat)
    (h0 : useSignalDB.findOneTodo todos id = some t0)
    (h1 : t0.updatedAt < n1) (h2 : n1 < n2) :
    ∃ t1 t2 : Todo,
      useSignalDB.findOneTodo (useTodos.toggleTodo todos id n1) id = some t1 ∧
      useSignalDB.findOneTodo
        (useTodos.toggleTodo (useTodos.toggleTodo todos id n1) id n2) id =
          some t2 ∧
      t1.completed = !t0.completed ∧
      t2.completed = t0.completed ∧
      t0.updatedAt < t1.updatedAt ∧ t1.updatedAt < t2.updatedAt := by
  have e1 : useTodos.toggleTodo todos id n1 =
      useSignalDB.updateOne todos id { completed := some (!t0.completed) } n1 := by
    unfold useTodos.toggleTodo
    rw [h0]
  set t1 : Todo := applySet t0
      { ({ completed := some (!t0.completed) } : TodoPatch) with
        updatedAt := some n1 } with ht1
  have f1 : useSignalDB.findOneTodo (useTodos.toggleTodo todos id n1) id =
      some t1 := by
    rw [e1]
    unfold useSignalDB.updateOne
    rw [findOne_updateOneTodoBy todos id
      (fun t => applySet t
        { ({ completed := some (!t0.completed) } : TodoPatch) with
          updatedAt := some n1 }) (fun u => rfl), h0, Option.map_some']
  have e2 : useTodos.toggleTodo (useTodos.toggleTodo todos id n1) id n2 =
      useSignalDB.updateOne (useTodos.toggleTodo todos id n1) id
        { completed := some (!t1.completed) } n2 := by
    show (match useSignalDB.findOneTodo (useTodos.toggleTodo todos id n1) id with
      | none => useTodos.toggleTodo todos id n1
      | some t =>
        useSignalDB.updateOne (useTodos.toggleTodo todos id n1) id
          { completed := some (!t.completed) } n2) = _
    rw [f1]
  set t2 : Todo := applySet t1
      { ({ completed := some (!t1.completed) } : TodoPatch) with
        updatedAt := some n2 } with ht2
  have f2 : useSignalDB.findOneTodo
      (useTodos.toggleTodo (useTodos.toggleTodo todos id n1) id n2) id =
        some t2 := by
    rw [e2]
    unfold useSignalDB.updateOne
    rw [findOne_updateOneTodoBy (useTodos.toggleTodo todos id n1) id
      (fun t => applySet t
        { ({ completed := some (!t1.completed) } : TodoPatch) with
          updatedAt := some n2 }) (fun u => rfl), f1, Option.map_some']
  refine ⟨t1, t2, f1, f2, rfl, ?_, ?_, ?_⟩
  · show (!(!t0.completed)) = t0.completed
    exact Bool.not_not t0.completed
  · exact h1
  · exact h2

/-- Witness for C3: the single-record collection `[alphaTodo]` toggled at
times 2 and 3 (its `updatedAt` starts at 1). -/
theorem toggleTodo_involution_witness :
    ∃ t1 t2 : Todo,
      useSignalDB.findOneTodo (useTodos.toggleTodo [alphaTodo] "ta" 2) "ta" =
        some t1 ∧
      useSignalDB.findOneTodo
        (useTodos.toggleTodo (useTodos.toggleTodo [alphaTodo] "ta" 2) "ta" 3)
          "ta" = some t2 ∧
      t1.completed = !alphaTodo.completed ∧
      t2.completed = alphaTodo.completed ∧
      alphaTodo.updatedAt < t1.updatedAt ∧ t1.updatedAt < t2.updatedAt :=
  toggleTodo_involution [alphaTodo] "ta" alphaTodo 2 3 (by decide) (by decide)
    (by decide)

/-- C10: every update issued through the store hook stamps the matched
records' `updatedAt` with the current time, overriding any `updatedAt` the
caller's patch supplies; a record not matched is untouched; consequently a
patch that does not touch `createdAt`, applied while the clock is at or past
every record's `createdAt`, preserves `updatedAt ≥ createdAt`, and records
created through the hook start with `updatedAt = createdAt = now`. -/
theorem updateOne_stamps_updatedAt :
    (∀ (t : Todo) (p : TodoPatch) (now : Nat),
      (applySet t { p with updatedAt := some now }).updatedAt = now) ∧
    (∀ (todos : List Todo) (id : String) (p : TodoPatch) (now : Nat),
      p.id = none →
      useSignalDB.findOneTodo (useSignalDB.updateOne todos id p now) id =
        (useSignalDB.findOneTodo todos id).map
          (fun t => applySet t { p with updatedAt := some now })) ∧
    (∀ (todos : List Todo) (sel : Todo → Bool) (p : TodoPatch) (now : Nat)
        (t : Todo), t ∈ useSignalDB.updateMany todos sel p now →
      t ∈ todos ∨ t.updatedAt = now) ∧
    (∀ (todos : List Todo) (sel : Todo → Bool) (p : TodoPatch) (now : Nat),
      p.createdAt = none →
      (∀ u ∈ todos, u.createdAt ≤ now) →
      (∀ u ∈ todos, u.createdAt ≤ u.updatedAt) →
      ∀ t ∈ useSignalDB.updateMany todos sel p now, t.createdAt ≤ t.updatedAt) ∧
    (∀ (todos : List Todo) (t : Todo) (id : String) (now : Nat),
      ∀ u ∈ useTodos.createTodo todos t id now,
        u ∈ todos ∨ (u.createdAt = now ∧ u.updatedAt = now)) := by
  refine ⟨fun t p now => rfl, ?_, ?_, ?_, ?_⟩
  · intro todos id p now hp
    unfold useSignalDB.updateOne
    exact findOne_updateOneTodoBy todos id
      (fun t => applySet t { p with updatedAt := some now }) (fun u => by
        show ({ p with updatedAt := some now } : TodoPatch).id.getD u.id = u.id
        rw [show ({ p with updatedAt := some now } : TodoPatch).id = p.id from
          rfl, hp]
        rfl)
  · intro todos sel p now t ht
    unfold useSignalDB.updateMany at ht
    obtain ⟨u, hu, rfl⟩ := List.mem_map.mp ht
    cases h : sel u with
    | true =>
      right
      show (applySet u { p with updatedAt := some now }).updatedAt = now
      rfl
    | false =>
      left
      show u ∈ todos
      exact hu
  · intro todos sel p now hp hnow hinv t ht
    unfold useSignalDB.updateMany at ht
    obtain ⟨u, hu, rfl⟩ := List.mem_map.mp ht
    cases h : sel u with
    | true =>
      show (applySet u { p with updatedAt := some now }).createdAt ≤
        (applySet u { p with updatedAt := some now }).updatedAt
      have hc : (applySet u { p with updatedAt := some now }).createdAt =
          u.createdAt := by
        show ({ p with updatedAt := some now } : TodoPatch).createdAt.getD
          u.createdAt = u.createdAt
        rw [show ({ p with updatedAt := some now } : TodoPatch).createdAt =
          p.createdAt from rfl, hp]
        rfl
      have hu2 : (applySet u { p with updatedAt := some now }).updatedAt =
          now := rfl
      rw [hc, hu2]
      exact hnow u hu
    | false =>
      show u.createdAt ≤ u.updatedAt
      exact hinv u hu
  · intro todos t id now u hu
    rcases List.mem_append.mp hu with h | h
    · exact Or.inl h
    · right
      rcases List.mem_singleton.mp h with rfl
      exact ⟨rfl, rfl⟩

/-- The ancestry walk at any positive fuel accepts its own target. -/
theorem walk_refl (fs : List Folder) (k : Nat) (x : String) :
    folderService.isDescendant fs (k + 1) x x = true := by
  simp [folderService.isDescendant]

/-- A successful `findOne` returns a member carrying the looked-up id. -/
theorem findFolder_mem (fs : List Folder) (q : String) (r : Folder)
    (h : folderService.findFolder fs q = some r) : r ∈ fs ∧ r.id = q := by
  refine ⟨List.mem_of_find?_eq_some h, ?_⟩
  have h2 := List.find?_some h
  simpa using h2

/-- With no duplicate ids, `findOne` on a member's id returns that member. -/
theorem findFolder_eq_of_mem (f : Folder) :
    ∀ fs : List Folder, (fs.map Folder.id).Nodup → f ∈ fs →
      folderService.findFolder fs f.id = some f := by
  intro fs
  induction fs with
  | nil => intro _ hf; cases hf
  | cons g rest ih =>
    intro hnd hf
    have hnd' : (rest.map Folder.id).Nodup :=
      (List.nodup_cons.mp (by simpa using hnd)).2
    rcases List.mem_cons.mp hf with rfl | hf'
    · simp [folderService.findFolder, List.find?_cons]
    · have hne : g.id ≠ f.id := by
        intro he
        exact (List.nodup_cons.mp (by simpa using hnd)).1
          (he ▸ List.mem_map_of_mem Folder.id hf')
      simp only [folderService.findFolder, List.find?_cons,
        show (g.id == f.id) = false by simp [hne]]
      exact ih hnd' hf'

/-- Membership in the recursive child enumeration is exactly bounded-depth
descendancy. -/
theorem mem_getAllChildFolders_iff (fs : List Folder) :
    ∀ (n : Nat) (a b : String),
      b ∈ folderService.getAllChildFolders fs n a ↔ DescendsN fs n a b := by
  intro n
  induction n with
  | zero =>
    intro a b
    simp [folderService.getAllChildFolders, DescendsN]
  | succ n ih =>
    intro a b
    simp only [folderService.getAllChildFolders, DescendsN, List.mem_append,
      List.mem_map, List.mem_filter, List.mem_flatMap, beq_iff_eq, ih,
      and_assoc]

/-- Extending a bounded-depth descendancy chain one record downward. -/
theorem descendsN_snoc (fs : List Folder) (r : Folder) (hr : r ∈ fs) :
    ∀ (n : Nat) (a p : String), DescendsN fs n a p → r.parentId = some p →
      DescendsN fs (n + 1) a r.id := by
  intro n
  induction n with
  | zero =>
    intro a p h _
    exact absurd h (by simp [DescendsN])
  | succ n ih =>
    intro a p h hp
    simp only [DescendsN] at h ⊢
    rcases h with ⟨f, hf, hfp, hfid⟩ | ⟨f, hf, hfp, hd⟩
    · refine Or.inr ⟨f, hf, hfp, Or.inl ⟨r, hr, ?_, rfl⟩⟩
      rw [hfid]
      exact hp
    · exact Or.inr ⟨f, hf, hfp, ih f.id p hd hp⟩

/-- Unfolding one successful step of the ancestry walk. -/
theorem walk_succ_elim (fs : List Folder) (k : Nat) (q c : String)
    (h : folderService.isDescendant fs (k + 1) q c = true) :
    q = c ∨ ∃ (r : Folder) (p : String),
      folderService.findFolder fs q = some r ∧ r.parentId = some p ∧
      p ≠ "" ∧ folderService.isDescendant fs k p c = true := by
  by_cases hqc : q = c
  · exact Or.inl hqc
  · right
    simp only [folderService.isDescendant,
      show (q == c) = false by simp [hqc], Bool.false_eq_true, if_false] at h
    split at h
    · simp at h
    · rename_i parent heq
      split at h
      · simp at h
      · rename_i pid heq2
        split at h
        · simp at h
        · rename_i hpe
          refine ⟨parent, pid, heq, heq2, ?_, h⟩
          simpa using hpe

/-- A successful ancestry walk of fuel `n + 1` either hits its target
immediately or witnesses a descendancy chain of depth at most `n`. -/
theorem walk_imp_descendsN (fs : List Folder) :
    ∀ (n : Nat) (q a : String),
      folderService.isDescendant fs (n + 1) q a = true →
      q = a ∨ DescendsN fs n a q := by
  intro n
  induction n with
  | zero =>
    intro q a h
    rcases walk_succ_elim fs 0 q a h with hqa | ⟨r, p, _, _, _, hw⟩
    · exact Or.inl hqa
    · exact absurd hw (by simp [folderService.isDescendant])
  | succ n ih =>
    intro q a h
    rcases walk_succ_elim fs (n + 1) q a h with hqa | ⟨r, p, hfind, hrp, hpe, hw⟩
    · exact Or.inl hqa
    · right
      obtain ⟨hrmem, hrid⟩ := findFolder_mem fs q r hfind
      rcases ih p a hw with rfl | hd
      · simp only [DescendsN]
        exact Or.inl ⟨r, hrmem, hrp, hrid⟩
      · rw [← hrid]
        exact descendsN_snoc fs r hrmem n a p hd hrp

/-- One successful step prepended to an ancestry walk. -/
theorem walk_with_parent (fs : List Folder)
    (hnd : (fs.map Folder.id).Nodup) (r : Folder) (hr : r ∈ fs) (p : String)
    (hrp : r.parentId = some p) (hpne : p ≠ "") (k : Nat) (c : String)
    (hrec : folderService.isDescendant fs k p c = true) :
    folderService.isDescendant fs (k + 1) r.id c = true := by
  by_cases hqc : r.id = c
  · simp [folderService.isDescendant, hqc]
  · simp only [folderService.isDescendant,
      show (r.id == c) = false by simp [hqc], Bool.false_eq_true, if_false,
      findFolder_eq_of_mem r fs hnd hr, hrp,
      show (p == "") = false by simp [hpne]]
    exact hrec

/-- Re-targeting a successful walk one parent edge higher costs one fuel. -/
theorem walk_extend (fs : List Folder) (hnd : (fs.map Folder.id).Nodup)
    (r : Folder) (hr : r ∈ fs) (targ : String) (hrp : r.parentId = some targ)
    (hte : targ ≠ "") :
    ∀ (m : Nat) (q : String),
      folderService.isDescendant fs (m + 1) q r.id = true →
      folderService.isDescendant fs (m + 2) q targ = true := by
  intro m
  induction m with
  | zero =>
    intro q h
    rcases walk_succ_elim fs 0 q r.id h with rfl | ⟨r', p', _, _, _, hw⟩
    · exact walk_with_parent fs hnd r hr targ hrp hte 1 targ (walk_refl fs 0 targ)
    · exact absurd hw (by simp [folderService.isDescendant])
  | succ m ih =>
    intro q h
    rcases walk_succ_elim fs (m + 1) q r.id h with rfl | ⟨r', p', hfind, hrp', hpe', hw⟩
    · exact walk_with_parent fs hnd r hr targ hrp hte (m + 2) targ
        (walk_refl fs (m + 1) targ)
    · obtain ⟨hrmem', hrid'⟩ := findFolder_mem fs q r' hfind
      have hw2 := ih p' hw
      rw [← hrid']
      exact walk_with_parent fs hnd r' hrmem' p' hrp' hpe' (m + 2) targ hw2

/-- Bounded-depth descendancy implies the ancestry walk succeeds with one
more unit of fuel, on a well-formed folder set. -/
theorem descendsN_imp_walk (fs : List Folder)
    (hnd : (fs.map Folder.id).Nodup) (hne : ∀ f ∈ fs, f.id ≠ "") :
    ∀ (n : Nat) (a b : String), a ≠ "" → DescendsN fs n a b →
      folderService.isDescendant fs (n + 1) b a = true := by
  intro n
  induction n with
  | zero =>
    intro a b _ h
    exact absurd h (by simp [DescendsN])
  | succ n ih =>
    intro a b ha h
    simp only [DescendsN] at h
    rcases h with ⟨f, hf, hfp, rfl⟩ | ⟨f, hf, hfp, hd⟩
    · exact walk_with_parent fs hnd f hf a hfp ha (n + 1) a (walk_refl fs n a)
    · have hw : folderService.isDescendant fs (n + 1) b f.id = true :=
        ih f.id b (hne f hf) hd
      exact walk_extend fs hnd f hf a hfp ha n b hw

/-- On a well-formed folder set, the source's upward ancestry walk agrees
with membership in the recursive descendant enumeration. -/
theorem isDescendant_iff_descendant (fs : List Folder)
    (hnd : (fs.map Folder.id).Nodup) (hne : ∀ f ∈ fs, f.id ≠ "")
    (a b : String) (ha : a ≠ "") (n : Nat) :
    folderService.isDescendant fs (n + 1) b a = true ↔
      (b = a ∨ b ∈ folderService.getAllChildFolders fs n a) := by
  constructor
  · intro h
    rcases walk_imp_descendsN fs n b a h with h' | h'
    · exact Or.inl h'
    · exact Or.inr ((mem_getAllChildFolders_iff fs n a b).mpr h')
  · rintro (rfl | h)
    · exact walk_refl fs n b
    · exact descendsN_imp_walk fs hnd hne n a b ha
        ((mem_getAllChildFolders_iff fs n a b).mp h)

/-- With no duplicate ids, updating the first matching folder is the same as
updating the (unique) matching folder pointwise. -/
theorem updateOneFolder_eq_map (g : Folder → Folder) :
    ∀ fs : List Folder, (fs.map Folder.id).Nodup → ∀ a : String,
      folderService.updateOneFolder fs a g =
        fs.map (fun f => if f.id = a then g f else f) := by
  intro fs
  induction fs with
  | nil =>
    intro _ a
    rfl
  | cons f rest ih =>
    intro hnd a
    have hhead : f.id ∉ rest.map Folder.id :=
      (List.nodup_cons.mp (by simpa using hnd)).1
    have hnd' : (rest.map Folder.id).Nodup :=
      (List.nodup_cons.mp (by simpa using hnd)).2
    by_cases h : f.id = a
    · simp only [folderService.updateOneFolder,
        show (f.id == a) = true by simp [h], if_true, List.map_cons, if_pos h]
      have hrest : ∀ f' ∈ rest, (if f'.id = a then g f' else f') = f' := by
        intro f' hf'
        rw [if_neg]
        intro he
        exact hhead (by rw [h, ← he]; exact List.mem_map_of_mem Folder.id hf')
      rw [List.map_congr_left hrest]
      simp
    · simp only [folderService.updateOneFolder,
        show (f.id == a) = false by simp [h], Bool.false_eq_true, if_false,
        List.map_cons, if_neg h]
      rw [ih hnd' a]

/-- C1: on a well-formed folder collection (no duplicate ids, no empty id),
`moveFolder(a, b)` is a rejected no-op — leaving every folder unchanged —
exactly when `a` is the root folder, or `b = a`, or `b` lies in the
recursive descendant set of `a`; otherwise it succeeds, setting `a`'s
`parentId` to `b` (stamping `updatedAt`) and leaving every other folder
unchanged.  The guard is evaluated before any mutation, so a rejected call
returns the state intact. -/
theorem moveFolder_cycle_guard (s : FolderState) (a b : String) (now : Nat)
    (hnd : (s.folders.map Folder.id).Nodup)
    (hne : ∀ f ∈ s.folders, f.id ≠ "")
    (ha : a ≠ "") :
    ((a = "root" ∨ b = a ∨
        b ∈ folderService.getAllChildFolders s.folders s.folders.length a) →
      folderService.moveFolder s a b now = s) ∧
    (a ≠ "root" → b ≠ a →
      b ∉ folderService.getAllChildFolders s.folders s.folders.length a →
      (folderService.moveFolder s a b now).folders =
        s.folders.map (fun f =>
          if f.id = a then { f with parentId := some b, updatedAt := now }
          else f) ∧
      (folderService.moveFolder s a b now).todos = s.todos) := by
  constructor
  · intro h
    by_cases hroot : a = "root"
    · simp [folderService.moveFolder, hroot]
    · have hwalk : folderService.isDescendant s.folders (s.folders.length + 1)
          b a = true := by
        rcases h with h | h | h
        · exact absurd h hroot
        · exact (isDescendant_iff_descendant s.folders hnd hne a b ha
            s.folders.length).mpr (Or.inl h)
        · exact (isDescendant_iff_descendant s.folders hnd hne a b ha
            s.folders.length).mpr (Or.inr h)
      simp [folderService.moveFolder, hroot, hwalk]
  · intro hroot hba hmem
    have hwalk : folderService.isDescendant s.folders (s.folders.length + 1)
        b a = false := by
      rw [← Bool.not_eq_true]
      intro hw
      rcases (isDescendant_iff_descendant s.folders hnd hne a b ha
        s.folders.length).mp hw with h | h
      · exact hba h
      · exact hmem h
    have hmove : folderService.moveFolder s a b now =
        { s with
          folders := folderService.updateOneFolder s.folders a
            (fun f => { f with parentId := some b, updatedAt := now }) } := by
      simp [folderService.moveFolder, hroot, hwalk]
    rw [hmove]
    exact ⟨updateOneFolder_eq_map _ s.folders hnd a, rfl⟩

/-- Witness for C1 on the concrete forest `root → A → B`: moving `A` under
its descendant `B` is rejected and leaves the state unchanged, while moving
`B` under `root` succeeds and reparents exactly `B`. -/
theorem moveFolder_cycle_guard_witness :
    folderService.moveFolder demoState "A" "B" 9 = demoState ∧
    (folderService.moveFolder demoState "B" "root" 9).folders =
      demoState.folders.map (fun f =>
        if f.id = "B" then { f with parentId := some "root", updatedAt := 9 }
        else f) := by
  constructor
  · exact (moveFolder_cycle_guard demoState "A" "B" 9 (by decide)
      (by decide) (by decide)).1 (Or.inr (Or.inr (by decide)))
  · exact ((moveFolder_cycle_guard demoState "B" "root" 9 (by decide)
      (by decide) (by decide)).2 (by decide) (by decide) (by decide)).1

/-- With no duplicate ids, `removeOne` on an id removes exactly the records
carrying that id. -/
theorem removeOneFolder_eq_filter :
    ∀ fs : List Folder, (fs.map Folder.id).Nodup → ∀ x : String,
      folderService.removeOneFolder fs x =
        fs.filter (fun f => !(f.id == x)) := by
  intro fs
  induction fs with
  | nil =>
    intro _ x
    rfl
  | cons f rest ih =>
    intro hnd x
    have hhead : f.id ∉ rest.map Folder.id :=
      (List.nodup_cons.mp (by simpa using hnd)).1
    have hnd' : (rest.map Folder.id).Nodup :=
      (List.nodup_cons.mp (by simpa using hnd)).2
    by_cases h : f.id = x
    · simp only [folderService.removeOneFolder,
        show (f.id == x) = true by simp [h], if_true]
      rw [List.filter_cons_of_neg (by simp [h])]
      symm
      apply List.filter_eq_self.mpr
      intro f' hf'
      have hne : f'.id ≠ x := by
        intro he
        exact hhead (by rw [h, ← he]; exact List.mem_map_of_mem Folder.id hf')
      simp [hne]
    · simp only [folderService.removeOneFolder,
        show (f.id == x) = false by simp [h], Bool.false_eq_true, if_false]
      rw [List.filter_cons_of_pos (by simp [h]), ih hnd' x]

/-- With no duplicate ids, the folder-deletion phase removes exactly the
folders whose id is listed. -/
theorem deleteFoldersPhase_eq_filter :
    ∀ (ids : List String) (fs : List Folder), (fs.map Folder.id).Nodup →
      folderService.deleteFoldersPhase fs ids =
        fs.filter (fun f => !(ids.contains f.id)) := by
  intro ids
  induction ids with
  | nil =>
    intro fs _
    simp [folderService.deleteFoldersPhase]
  | cons i ids ih =>
    intro fs hnd
    have step : folderService.deleteFoldersPhase fs (i :: ids) =
        folderService.deleteFoldersPhase (folderService.removeOneFolder fs i)
          ids := rfl
    rw [step, removeOneFolder_eq_filter fs hnd i]
    have hnd2 : ((fs.filter (fun f => !(f.id == i))).map Folder.id).Nodup :=
      ((List.filter_sublist fs).map Folder.id).nodup hnd
    rw [ih _ hnd2, List.filter_filter]
    apply List.filter_congr
    intro f _
    by_cases hfi : f.id = i <;>
      simp [List.contains_cons, Bool.not_or, Bool.and_comm, hfi]

/-- The todo-deletion phase removes exactly the todos whose `folderId` is
listed. -/
theorem deleteTodosPhase_eq_filter :
    ∀ (ids : List String) (ts : List FTodo),
      folderService.deleteTodosPhase ts ids =
        ts.filter (fun t => !(ids.contains t.folderId)) := by
  intro ids
  induction ids with
  | nil =>
    intro ts
    simp [folderService.deleteTodosPhase]
  | cons i ids ih =>
    intro ts
    have step : folderService.deleteTodosPhase ts (i :: ids) =
        folderService.deleteTodosPhase
          (ts.filter (fun t => !(t.folderId == i))) ids := rfl
    rw [step, ih, List.filter_filter]
    apply List.filter_congr
    intro t _
    by_cases hti : t.folderId = i <;>
      simp [List.contains_cons, Bool.not_or, Bool.and_comm, hti]

/-- C2: `deleteFolder('root')` is rejected and changes nothing; for every
other id, with no duplicate folder ids, the operation deletes exactly the
todos whose `folderId` lies in `{id} ∪ descendants(id)` and exactly the
folders in that same set — afterwards no remaining todo and no remaining
folder references `id` or any former descendant — and the result decomposes
as the todo-deletion phase (computed against the pre-deletion folder set)
followed by the folder-deletion phase. -/
theorem deleteFolder_cascade (s : FolderState) (id : String)
    (hnd : (s.folders.map Folder.id).Nodup) :
    (id = "root" → folderService.deleteFolder s id = s) ∧
    (id ≠ "root" →
      (folderService.deleteFolder s id).todos =
        s.todos.filter (fun t =>
          !((folderService.folderIdsToDelete s.folders id).contains
            t.folderId)) ∧
      (folderService.deleteFolder s id).folders =
        s.folders.filter (fun f =>
          !((folderService.folderIdsToDelete s.folders id).contains f.id)) ∧
      (∀ t ∈ (folderService.deleteFolder s id).todos,
        t.folderId ≠ id ∧
        t.folderId ∉ folderService.getAllChildFolders s.folders
          s.folders.length id) ∧
      (∀ f ∈ (folderService.deleteFolder s id).folders,
        f.id ≠ id ∧
        f.id ∉ folderService.getAllChildFolders s.folders
          s.folders.length id) ∧
      folderService.deleteFolder s id =
        { folders := folderService.deleteFoldersPhase s.folders
            (folderService.folderIdsToDelete s.folders id),
          todos := folderService.deleteTodosPhase s.todos
            (folderService.folderIdsToDelete s.folders id) }) := by
  constructor
  · intro h
    simp [folderService.deleteFolder, h]
  · intro h
    have hif : folderService.deleteFolder s id =
        { folders := folderService.deleteFoldersPhase s.folders
            (folderService.folderIdsToDelete s.folders id),
          todos := folderService.deleteTodosPhase s.todos
            (folderService.folderIdsToDelete s.folders id) } := by
      simp [folderService.deleteFolder, h]
    have htodos : (folderService.deleteFolder s id).todos =
        s.todos.filter (fun t =>
          !((folderService.folderIdsToDelete s.folders id).contains
            t.folderId)) := by
      rw [hif]
      exact deleteTodosPhase_eq_filter _ s.todos
    have hfolders : (folderService.deleteFolder s id).folders =
        s.folders.filter (fun f =>
          !((folderService.folderIdsToDelete s.folders id).contains f.id)) := by
      rw [hif]
      exact deleteFoldersPhase_eq_filter _ s.folders hnd
    refine ⟨htodos, hfolders, ?_, ?_, hif⟩
    · intro t ht
      rw [htodos] at ht
      have hmemf := List.of_mem_filter ht
      simp only [folderService.folderIdsToDelete, Bool.not_eq_true',
        List.contains_cons, Bool.or_eq_false_iff, beq_eq_false_iff_ne] at hmemf
      refine ⟨hmemf.1, ?_⟩
      simpa using hmemf.2
    · intro f hf
      rw [hfolders] at hf
      have hmemf := List.of_mem_filter hf
      simp only [folderService.folderIdsToDelete, Bool.not_eq_true',
        List.contains_cons, Bool.or_eq_false_iff, beq_eq_false_iff_ne] at hmemf
      refine ⟨hmemf.1, ?_⟩
      simpa using hmemf.2

/-- Witness for C2 on the concrete forest `root → A → B` with a todo in `B`
and a todo in `root`: deleting `A` removes folder `B` and the todo filed in
`B`, keeps the root todo, and rejects deleting `root`. -/
theorem deleteFolder_cascade_witness :
    folderService.deleteFolder demoState "root" = demoState ∧
    (folderService.deleteFolder demoState "A").todos =
      demoState.todos.filter (fun t =>
        !((folderService.folderIdsToDelete demoState.folders "A").contains
          t.folderId)) := by
  constructor
  · exact (deleteFolder_cascade demoState "root" (by decide)).1 rfl
  · exact ((deleteFolder_cascade demoState "A" (by decide)).2 (by decide)).1

end SignalDBTodo
